import Mathlib

/-!
Verification of the `FullWidthNumberField` component
(src/unnamed/part_000 of Tatsukiyoshi/YaFullWidthInputField).

The development shallowly embeds the component's pure helpers
(`normalizeAndRemoveCommas`, `formatNumberWithCommas`,
`validateAndSetError`) and its two event handlers
(`handleInternalChange`, `handleInternalBlur`) as Lean functions over
`String`/`List Char`, with JavaScript numbers idealised as exact
decimal rationals (`JSNum`).  Operations that can raise a `RangeError` in
JavaScript (`Number.prototype.toFixed`, `Intl`-backed
`toLocaleString` with out-of-range fraction-digit options) are
modelled as `Option`-valued, `none` marking the throw.

Idealisations, noted where they matter:
* `Number(...)` parses the decimal-literal fragment of the JS string
  numeric grammar exactly into `JSNum`; hexadecimal/exponent/`Infinity`
  forms and whitespace trimming are mapped to `none` (NaN).  No claim
  below depends on those forms.
* rounding (`toFixed`, `toLocaleString`) is exact half-away-from-zero
  decimal rounding of the rational value, which agrees with the
  IEEE-754 behaviour on the decimally-representable values all
  concrete statements below use; IEEE negative zero is identified
  with zero.
-/

namespace FullWidthNumberField

/-! ## Normalizer: `normalizeAndRemoveCommas` (part_000 lines 9-25) -/

/-- Models `str.replace(/[０-９]/g, s => String.fromCharCode(s.charCodeAt(0) - 0xFEE0))`:
the fixed offset `0xFEE0` maps exactly U+FF10 … U+FF19 to U+0030 … U+0039,
written out as the corresponding ten-entry table. -/
def fwDigitToHw (c : Char) : Char :=
  match c with
  | '０' => '0' | '１' => '1' | '２' => '2' | '３' => '3' | '４' => '4'
  | '５' => '5' | '６' => '6' | '７' => '7' | '８' => '8' | '９' => '9'
  | c => c

/-- Models `str.replace(/．/g, '.')` applied characterwise. -/
def fwPeriodToHw (c : Char) : Char :=
  if c = '．' then '.' else c

/-- Models `str.replace(/ー/g, '-')` applied characterwise (the source maps the
long-vowel mark U+30FC, the character produced by typing `-` in kana mode). -/
def chouonToMinus (c : Char) : Char :=
  if c = 'ー' then '-' else c

/-- The three characterwise replacements of `normalizeAndRemoveCommas`,
in source order, followed by `str.replace(/,/g, '')` — removal of the
half-width comma U+002C. -/
def normalizeChars (l : List Char) : List Char :=
  ((((l.map fwDigitToHw).map fwPeriodToHw).map chouonToMinus).filter (fun c => c ≠ ','))

/-- The Normalizer `normalizeAndRemoveCommas` (part_000 lines 9-25).  The argument is
`Option String`: `none` stands for `null`/`undefined` (both return `""`),
and a `number` argument is covered because `String(input)` turns it into
a string before any replacement runs. -/
def normalizeAndRemoveCommas (input : Option String) : String :=
  match input with
  | none => ""
  | some s => ⟨normalizeChars s.data⟩

/-- The three replacements composed, for reasoning. -/
def normChar (c : Char) : Char :=
  chouonToMinus (fwPeriodToHw (fwDigitToHw c))


/-! ## JavaScript numbers as exact decimal rationals

`Number(...)` on the strings this component feeds it (the decimal
fragment `[+-]? \d* (\. \d*)?` of the string numeric grammar, with at
least one digit) yields a finite number; everything else relevant
here yields `NaN`.  We model the parse exactly as a decimal rational
`mant / 10 ^ exp`, with `none` standing for `NaN`. -/

/-- An exact decimal rational: the value `mant / 10 ^ exp`.  Exactly
the values `Number` produces from decimal literals (idealising away
the 53-bit mantissa limit); IEEE negative zero is identified with
zero.  The representation is not unique, and no operation below
depends on the choice of representative. -/
structure JSNum where
  mant : Int
  exp : Nat
  deriving DecidableEq

/-- Comparison `x < y` on the represented values, by cross-multiplication. -/
def JSNum.lt (x y : JSNum) : Bool :=
  x.mant * (10 : Int) ^ y.exp < y.mant * (10 : Int) ^ x.exp

/-- Class `\d` of the JavaScript regexps: the ASCII digits. -/
def isAsciiDigit (c : Char) : Bool :=
  '0' ≤ c && c ≤ '9'

/-- Recogniser for `\d*`. -/
def digitsOnly : List Char → Bool
  | [] => true
  | c :: cs => isAsciiDigit c && digitsOnly cs

/-- Recogniser for `\d*(\.\d*)?`. -/
def fracTail : List Char → Bool
  | [] => true
  | c :: rest =>
    if c = '.' then digitsOnly rest
    else isAsciiDigit c && fracTail rest

/-- Value of a digit string (most significant first). -/
def digitsVal (l : List Char) : Nat :=
  l.foldl (fun a c => 10 * a + (c.toNat - 48)) 0

/-- JavaScript `s.split('.')`. -/
def splitDot : List Char → List (List Char)
  | [] => [[]]
  | c :: rest =>
    if c = '.' then [] :: splitDot rest
    else
      match splitDot rest with
      | [] => [[c]]
      | p :: ps => (c :: p) :: ps

/-- The characters strictly after the first `'.'` (empty when there is
no dot). -/
def portionAfterDot : List Char → List Char
  | [] => []
  | c :: rest => if c = '.' then rest else portionAfterDot rest

/-- Parsing `Number(s)`, restricted to the decimal-literal fragment: optional
sign, then `\d*(\.\d*)?` containing at least one digit, yielding
`±(intPart + fracPart / 10 ^ fracLen)`.  `""` parses to `0` as in JS;
every other string (including `"-"`, `"."`, `"-."`) is `NaN`
(`none`).  Hex/exponent/`Infinity` forms and whitespace trimming are
outside the model and also map to `none`; no claim exercises them. -/
def jsNumber (s : String) : Option JSNum :=
  match s.data with
  | [] => some ⟨0, 0⟩
  | c :: r =>
    let body : List Char := if c = '-' ∨ c = '+' then r else c :: r
    let neg : Bool := c = '-'
    if fracTail body && body.any isAsciiDigit then
      let ip := body.takeWhile (fun c => c ≠ '.')
      let fp := portionAfterDot body
      let mag : Nat := digitsVal ip * 10 ^ fp.length + digitsVal fp
      some ⟨if neg then -(mag : Int) else (mag : Int), fp.length⟩
    else
      none

/-! ## Decimal rendering of numbers

`toLocaleString('en-US', …)` and `toFixed` render a number in base 10.
We render the exact rational with half-away-from-zero rounding at the
requested number of fraction digits (the behaviour both primitives
exhibit on decimally-representable doubles). -/

/-- One decimal digit as a character (`n` is always `< 10` at call sites). -/
def digitChar (n : Nat) : Char :=
  match n with
  | 0 => '0' | 1 => '1' | 2 => '2' | 3 => '3' | 4 => '4'
  | 5 => '5' | 6 => '6' | 7 => '7' | 8 => '8' | _ => '9'

/-- Base-10 digits, most significant first, with structural fuel so
that the kernel can evaluate it (`fuel` bounds the digit count). -/
def natDigitsAux (fuel : Nat) (n : Nat) : List Char :=
  match fuel with
  | 0 => []
  | fuel + 1 =>
    if n < 10 then [digitChar n]
    else natDigitsAux fuel (n / 10) ++ [digitChar (n % 10)]

/-- Base-10 digits of a natural number, most significant first
(`n + 1` units of fuel always suffice). -/
def natDigits (n : Nat) : List Char :=
  natDigitsAux (n + 1) n

/-- Left-pad with `'0'` up to length `k`. -/
def padLeftZeros (l : List Char) (k : Nat) : List Char :=
  List.replicate (k - l.length) '0' ++ l

/-- Drop up to `k` leading `'0'` characters. -/
def dropLeadingZerosUpTo : List Char → Nat → List Char
  | l, 0 => l
  | [], _ + 1 => []
  | c :: cs, k + 1 => if c = '0' then dropLeadingZerosUpTo cs k else c :: cs

/-- Remove trailing `'0'`s but never shrink below `minLen` characters
(`Intl`'s `minimumFractionDigits`). -/
def trimTrailingZeros (l : List Char) (minLen : Nat) : List Char :=
  (dropLeadingZerosUpTo l.reverse (l.length - minLen)).reverse

/-- Insert `','` after every third character of a reversed digit list. -/
def insertCommasRev : List Char → List Char
  | c1 :: c2 :: c3 :: c4 :: rest => c1 :: c2 :: c3 :: ',' :: insertCommasRev (c4 :: rest)
  | l => l

/-- Grouping: `en-US` 3-digit clusters of an integer digit string. -/
def insertCommas (l : List Char) : List Char :=
  (insertCommasRev l.reverse).reverse

/-- Magnitude `|q| * 10^d`, rounded half away from zero to an integer:
`⌊|mant| · 10^d + 10^exp / 2⌋ / 10^exp` computed on naturals. -/
def scaledRound (q : JSNum) (d : Nat) : Nat :=
  (q.mant.natAbs * 10 ^ d * 2 + 10 ^ q.exp) / (2 * 10 ^ q.exp)

/-- The digits of `toLocaleString('en-US', { minimumFractionDigits
:= minFD, maximumFractionDigits := maxFD })` on the exact value:
sign, grouped integer part, fraction rounded to `maxFD` digits with
trailing zeros trimmed down to `minFD`. -/
def formatRat (q : JSNum) (minFD maxFD : Nat) : String :=
  let scaled := scaledRound q maxFD
  let ip := scaled / 10 ^ maxFD
  let fr := scaled % 10 ^ maxFD
  let fracFull : List Char := if maxFD = 0 then [] else padLeftZeros (natDigits fr) maxFD
  let frac := trimTrailingZeros fracFull minFD
  ⟨(if q.mant < 0 then ['-'] else []) ++ insertCommas (natDigits ip) ++
    (if frac = [] then [] else '.' :: frac)⟩

/-- Models `num.toLocaleString('en-US', …)` with explicit fraction-digit
options.  `Intl.NumberFormat` throws a `RangeError` when either option
lies outside `0…100` or `maximumFractionDigits <
minimumFractionDigits`; the throw is modelled as `none`. -/
def toLocaleStringEnUS (q : JSNum) (minFD maxFD : Int) : Option String :=
  if 0 ≤ minFD ∧ minFD ≤ 100 ∧ 0 ≤ maxFD ∧ maxFD ≤ 100 ∧ minFD ≤ maxFD then
    some (formatRat q minFD.toNat maxFD.toNat)
  else none

/-- Digits of `num.toFixed(d)`: sign, then ungrouped integer digits, then (when
`d ≠ 0`) exactly `d` fraction digits. -/
def fixedString (q : JSNum) (d : Nat) : String :=
  let scaled := scaledRound q d
  let ip := scaled / 10 ^ d
  let fr := scaled % 10 ^ d
  ⟨(if q.mant < 0 then ['-'] else []) ++ natDigits ip ++
    (if d = 0 then [] else '.' :: padLeftZeros (natDigits fr) d)⟩

/-- Models `num.toFixed(d)`; ECMA-262 throws a `RangeError` when `d` lies
outside `0…100`, modelled as `none`. -/
def toFixed (q : JSNum) (d : Int) : Option String :=
  if 0 ≤ d ∧ d ≤ 100 then some (fixedString q d.toNat) else none

/-- JavaScript number-to-string (`${min}` interpolation): the exact
(always terminating) decimal expansion — sign, integer digits, and
the fraction digits with trailing zeros trimmed. -/
def jsNumToString (q : JSNum) : String :=
  let m := q.mant.natAbs
  let ip := m / 10 ^ q.exp
  let fr := m % 10 ^ q.exp
  let frac := trimTrailingZeros
    (if q.exp = 0 then [] else padLeftZeros (natDigits fr) q.exp) 0
  ⟨(if q.mant < 0 then ['-'] else []) ++ natDigits ip ++
    (if frac = [] then [] else '.' :: frac)⟩

/-- JavaScript integer-to-string (`${decimalPlaces}` interpolation). -/
def intToString (d : Int) : String :=
  ⟨(if d < 0 then ['-'] else []) ++ natDigits d.natAbs⟩

/-! ## Formatter: `formatNumberWithCommas` (part_000 lines 28-78)

The component always passes a string (`internalValue`), so the
`value === null || value === undefined` guard at the top of the source
is vacuous here and the argument is a plain `String`.  The result is
`Option String`, `none` marking a `RangeError` escaping from
`toLocaleString`. -/

def formatNumberWithCommas (value : String) (allowDecimal : Bool)
    (decimalPlaces : Option Int) : Option String :=
  let valStr := value
  if valStr = "" ∨ valStr = "-" ∨ valStr = "." ∨ valStr = "-." then some valStr
  else
    match jsNumber valStr with
    | none =>
      -- `isNaN(num)`: partially formattable input such as "123invalid"
      let parts := splitDot valStr.data
      let integerPart : String := ⟨parts.headD []⟩
      let potentialDecimalPart : Option (List Char) := parts[1]?
      if integerPart ≠ "" ∧ (jsNumber integerPart).isSome then
        match toLocaleStringEnUS ((jsNumber integerPart).getD ⟨0, 0⟩) 0 0 with
        | some formattedInt =>
          if allowDecimal ∧ potentialDecimalPart.isSome then
            some (formattedInt ++ "." ++ ⟨potentialDecimalPart.getD []⟩)
          else some formattedInt
        | none => none
      else some valStr
    | some num =>
      let fdOpts : Int × Int :=
        if allowDecimal = false then (0, 0)
        else
          match decimalPlaces with
          | some d => (d, d)
          | none =>
            match (splitDot valStr.data)[1]? with
            | some decimalPartStr =>
              -- `if (decimalPartStr)`: the empty string is falsy
              if decimalPartStr ≠ [] then
                ((decimalPartStr.length : Int), (decimalPartStr.length : Int))
              else (0, 0)
            | none => (0, 0)
      toLocaleStringEnUS num fdOpts.1 fdOpts.2

/-! ## Validator: `validateAndSetError` (part_000 lines 161-218) -/

/-- The props the validation and event logic reads (`required`, `min`,
`max`, `allowDecimal`, `decimalPlaces`); `allowDecimal` defaults to
`true` and the others to absent at the call site. -/
structure Props where
  required : Bool
  allowDecimal : Bool
  decimalPlaces : Option Int
  min : Option JSNum
  max : Option JSNum

def reqMsg : String := "入力は必須です。"
def fmtMsgDec : String := "有効な半角数字、小数点、マイナス記号のみが許容されます。"
def fmtMsgInt : String := "有効な半角整数、マイナス記号のみが許容されます。"
def nanMsg : String := "有効な半角数字を入力してください。"
def dpMsg (d : Int) : String := "小数点以下は" ++ intToString d ++ "桁までです。"
def minMsg (mn : JSNum) : String := jsNumToString mn ++ "以上の値を入力してください。"
def maxMsg (mx : JSNum) : String := jsNumToString mx ++ "以下の値を入力してください。"

/-- The format regexp: `^-?\d*(\.\d*)?$` when decimals are allowed,
else `^-?\d*$`. -/
def matchesPattern (allowDecimal : Bool) (s : String) : Bool :=
  let body : List Char :=
    match s.data with
    | [] => []
    | c :: rest => if c = '-' then rest else c :: rest
  if allowDecimal then fracTail body else digitsOnly body

/-- The Validator `validateAndSetError` (part_000 lines 161-218) as a pure function:
the returned pair is `(hasError, currentHelperText)`, the two values
the source writes into component state before returning `hasError`.
The `min`-then-`max` mutation sequence of the source means a violated
`max` overwrites a violated `min` message, encoded by consulting the
`max` verdict first. -/
def validateAndSetError (p : Props) (currentValue : String) : Bool × String :=
  if p.required ∧ currentValue = "" then (true, reqMsg)
  else if currentValue ≠ "" then
    if ¬ matchesPattern p.allowDecimal currentValue then
      (true, if p.allowDecimal then fmtMsgDec else fmtMsgInt)
    else if currentValue = "-" ∨
        (p.allowDecimal ∧ (currentValue = "." ∨ currentValue = "-.")) then
      -- input in progress: no error
      (false, "")
    else
      match jsNumber currentValue with
      | none => (true, nanMsg)
      | some numValue =>
        let dpVerdict : Bool × String :=
          if p.allowDecimal then
            match p.decimalPlaces with
            | some d =>
              let parts := splitDot currentValue.data
              if 1 < parts.length ∧ (d : Int) < (((parts[1]?).getD []).length : Int) then
                (true, dpMsg d)
              else (false, "")
            | none => (false, "")
          else (false, "")
        if dpVerdict.1 then dpVerdict
        else
          let minVerdict : Bool × String :=
            match p.min with
            | some mn => if JSNum.lt numValue mn then (true, minMsg mn) else (false, "")
            | none => (false, "")
          let maxVerdict : Bool × String :=
            match p.max with
            | some mx => if JSNum.lt mx numValue then (true, maxMsg mx) else (false, "")
            | none => (false, "")
          if maxVerdict.1 then maxVerdict
          else if minVerdict.1 then minVerdict
          else (false, "")
  else (false, "")

/-! ## Controller: the event handlers (part_000 lines 221-288) -/

/-- The component state the handlers read and write: `internalValue`,
`error`, `internalHelperText`, and the `isComposing` ref. -/
structure FieldState where
  internalValue : String
  error : Bool
  helperText : String
  isComposing : Bool
  deriving DecidableEq

/-- The handler `handleInternalChange` (part_000 lines 253-288).  Returns the new
state together with the list of `onValueChange` notifications fired
(the `muiOnChange` pass-through is outside the model).  While
composing, the raw buffer is stored verbatim and nothing is
validated or notified; otherwise the input is normalized, validated,
and `onValueChange(normalizedValue)` fires unconditionally. -/
def handleInternalChange (p : Props) (st : FieldState) (inputValue : String) :
    FieldState × List String :=
  if st.isComposing then
    ({ st with internalValue := inputValue }, [])
  else
    let normalizedValue := normalizeAndRemoveCommas (some inputValue)
    let ver := validateAndSetError p normalizedValue
    ({ st with internalValue := normalizedValue, error := ver.1, helperText := ver.2 },
      [normalizedValue])

/-- The handler `handleInternalBlur` (part_000 lines 221-250).  Returns `none`
when `toFixed` raises a `RangeError` (`decimalPlaces` outside
`0…100`); otherwise the new state and the `onValueChange`
notifications fired. -/
def handleInternalBlur (p : Props) (st : FieldState) :
    Option (FieldState × List String) :=
  if st.isComposing then some (st, [])
  else
    let currentValue := st.internalValue
    let ver := validateAndSetError p currentValue
    let st1 := { st with error := ver.1, helperText := ver.2 }
    if ver.1 = false ∧ p.allowDecimal then
      match p.decimalPlaces with
      | some d =>
        match jsNumber currentValue with
        | some numValue =>
          if currentValue ≠ "" ∧ currentValue ≠ "-" ∧ currentValue ≠ "." then
            match toFixed numValue d with
            | some roundedValue =>
              if roundedValue ≠ currentValue then
                let ver2 := validateAndSetError p roundedValue
                some ({ st1 with
                          internalValue := roundedValue
                          error := ver2.1
                          helperText := ver2.2 }, [roundedValue])
              else some (st1, [])
            | none => none
          else some (st1, [])
        | none => some (st1, [])  -- `isNaN(numValue)`
      | none => some (st1, [])
    else some (st1, [])

/-! ## Lemmas and claim theorems for the Normalizer -/

theorem normalizeChars_eq (l : List Char) :
    normalizeChars l = (l.map normChar).filter (fun c => c ≠ ',') := by
  unfold normalizeChars normChar
  rw [List.map_map, List.map_map]
  rfl

theorem fwDigitToHw_cases (c : Char) :
    fwDigitToHw c ∈ ['0','1','2','3','4','5','6','7','8','9'] ∨ fwDigitToHw c = c := by
  unfold fwDigitToHw
  split <;> simp

theorem hwDigit_fixed : ∀ d ∈ ['0','1','2','3','4','5','6','7','8','9'],
    fwDigitToHw d = d ∧ fwPeriodToHw d = d ∧ chouonToMinus d = d := by
  decide

theorem normChar_idem (c : Char) : normChar (normChar c) = normChar c := by
  rcases fwDigitToHw_cases c with h | h
  · -- the first replacement produced a half-width digit, fixed by everything
    obtain ⟨h1, h2, h3⟩ := hwDigit_fixed _ h
    have hc : normChar c = fwDigitToHw c := by
      unfold normChar; rw [h2, h3]
    rw [hc]
    unfold normChar
    rw [h1, h2, h3]
  · -- the first replacement left `c` alone
    by_cases hp : c = '．'
    · subst hp; decide
    · by_cases hm : c = 'ー'
      · subst hm; decide
      · have e1 : fwPeriodToHw c = c := by simp [fwPeriodToHw, hp]
        have e2 : chouonToMinus c = c := by simp [chouonToMinus, hm]
        have e3 : normChar c = c := by unfold normChar; rw [h, e1, e2]
        rw [e3, e3]

theorem normalizeChars_idem (l : List Char) :
    normalizeChars (normalizeChars l) = normalizeChars l := by
  rw [normalizeChars_eq, normalizeChars_eq]
  induction l with
  | nil => rfl
  | cons c cs ih =>
    rw [List.map_cons, List.filter_cons]
    by_cases hc : normChar c = ','
    · rw [if_neg (by simp [hc])]
      exact ih
    · rw [if_pos (by simp [hc]), List.map_cons, List.filter_cons,
        normChar_idem c, if_pos (by simp [hc]), ih]

/-- C1: the Normalizer is idempotent.  The outer application always
receives a string, so quantifying the inner input over `Option String`
(absent, string — and numbers, which `String(...)` reduces to strings)
covers every raw input. -/
theorem normalizeAndRemoveCommas_idempotent (x : Option String) :
    normalizeAndRemoveCommas (some (normalizeAndRemoveCommas x)) =
      normalizeAndRemoveCommas x := by
  cases x with
  | none => rfl
  | some s =>
    show (⟨normalizeChars (normalizeChars s.data)⟩ : String) = ⟨normalizeChars s.data⟩
    rw [normalizeChars_idem]

/-- C2 counterexample: the source strips only the half-width comma
(`/,/g`, U+002C), so the full-width grouping separator `，` (U+FF0C)
survives normalization and `"１２３，４５６"` does not become `"123456"`. -/
theorem normalize_fullwidth_comma_cex :
    normalizeAndRemoveCommas (some "１２３，４５６") = "123，456" ∧
      normalizeAndRemoveCommas (some "１２３，４５６") ≠ "123456" := by
  constructor <;> decide

/-- C2 amended: every full-width digit maps to its half-width
equivalent (`"１２３"` → `"123"`), and half-width grouping separators
are stripped (`"123,456"` → `"123456"`), but the full-width separator
`，` is left in place (`"１２３，４５６"` → `"123，456"`). -/
theorem normalize_digits_and_commas :
    normalizeAndRemoveCommas (some "１２３") = "123" ∧
      normalizeAndRemoveCommas (some "123,456") = "123456" ∧
      normalizeAndRemoveCommas (some "１２３，４５６") = "123，456" := by
  refine ⟨by decide, by decide, by decide⟩

/-! ## Claim theorems -/

/-- C3 counterexample: with `decimalPlaces = 2` the Formatter maps the
canonical value `"1.5"` (not an in-progress token) to `"1.50"`, whose
portion after the decimal point, `"50"`, differs from the input's
portion `"5"` — the Formatter itself pads to `decimalPlaces` digits. -/
theorem formatter_alters_fraction_cex :
    formatNumberWithCommas "1.5" true (some 2) = some "1.50" ∧
      portionAfterDot ("1.50" : String).data ≠ portionAfterDot ("1.5" : String).data := by
  constructor <;> decide

/-- C4 counterexample: `decimalPlaces = 101` makes
`formatNumberWithCommas "1.5" true` raise a `RangeError` from
`toLocaleString` (modelled as `none`), and the blur handler's
`toFixed(101)` raises likewise. -/
theorem formatter_throws_cex :
    formatNumberWithCommas "1.5" true (some 101) = none ∧
      handleInternalBlur ⟨false, true, some 101, none, none⟩ ⟨"1.5", false, "", false⟩
        = none := by
  constructor <;> decide

/-- C5: with `decimalPlaces = 2` and `allowDecimal = true`, an Idle
edit to `"1.5"` validates without error, and the following blur
rounds the canonical value to `"1.50"`, keeps it error-free, and
fires `onValueChange("1.50")`. -/
theorem blur_rounds_half_to_1_50 :
    handleInternalChange ⟨false, true, some 2, none, none⟩ ⟨"", false, "", false⟩ "1.5"
        = (⟨"1.5", false, "", false⟩, ["1.5"]) ∧
      handleInternalBlur ⟨false, true, some 2, none, none⟩ ⟨"1.5", false, "", false⟩
        = some (⟨"1.50", false, "", false⟩, ["1.50"]) := by
  constructor <;> decide

/-- C8 counterexample: an Idle-path edit whose normalized result
equals the current canonical value still fires `onValueChange` — the
Idle branch of `handleInternalChange` notifies unconditionally,
without comparing against the previous value. -/
theorem change_fires_without_change_cex :
    handleInternalChange ⟨false, true, none, none, none⟩ ⟨"123", false, "", false⟩ "123"
        = (⟨"123", false, "", false⟩, ["123"]) ∧
      (handleInternalChange ⟨false, true, none, none, none⟩
          ⟨"123", false, "", false⟩ "123").2 ≠ [] := by
  constructor <;> decide

/-- C6: with `allowDecimal = false` (any `required`, `decimalPlaces`,
`min`, `max`, and any prior state), an Idle edit to `"12.3"` yields
the integer-format error with the value kept verbatim, and a
subsequent blur performs no rounding: the canonical value is still
`"12.3"` and the error is still surfaced. -/
theorem integer_field_keeps_fraction_error (required : Bool) (dp : Option Int)
    (mn mx : Option JSNum) (v0 h0 : String) (e0 : Bool) :
    handleInternalChange ⟨required, false, dp, mn, mx⟩ ⟨v0, e0, h0, false⟩ "12.3"
        = (⟨"12.3", true, fmtMsgInt, false⟩, ["12.3"]) ∧
      handleInternalBlur ⟨required, false, dp, mn, mx⟩ ⟨"12.3", true, fmtMsgInt, false⟩
        = some (⟨"12.3", true, fmtMsgInt, false⟩, []) := by
  have hn : normalizeAndRemoveCommas (some "12.3") = "12.3" := by decide
  have hv : validateAndSetError ⟨required, false, dp, mn, mx⟩ "12.3" = (true, fmtMsgInt) := by
    have h1 : matchesPattern false "12.3" = false := by decide
    simp [validateAndSetError, h1]
  constructor
  · simp [handleInternalChange, hn, hv]
  · simp [handleInternalBlur, hv]

/-- C7: when `required` is false the in-progress tokens are never
errors, under arbitrary `decimalPlaces`/`min`/`max` constraints:
`""` and `"-"` for every `allowDecimal`, and `"."`/`"-."` when
decimals are allowed, all validate as `(hasError := false, message
:= "")` — in particular the numeric, decimal-places and min/max
checks are skipped. -/
theorem in_progress_tokens_no_error (ad : Bool) (dp : Option Int) (mn mx : Option JSNum) :
    validateAndSetError ⟨false, ad, dp, mn, mx⟩ "" = (false, "") ∧
      validateAndSetError ⟨false, ad, dp, mn, mx⟩ "-" = (false, "") ∧
      validateAndSetError ⟨false, true, dp, mn, mx⟩ "." = (false, "") ∧
      validateAndSetError ⟨false, true, dp, mn, mx⟩ "-." = (false, "") := by
  refine ⟨?_, ?_, ?_, ?_⟩
  · simp [validateAndSetError]
  · have h1 : ∀ b, matchesPattern b "-" = true := by decide
    simp [validateAndSetError, h1]
  · have h1 : matchesPattern true "." = true := by decide
    simp [validateAndSetError, h1]
  · have h1 : matchesPattern true "-." = true := by decide
    simp [validateAndSetError, h1]

theorem append_right_ne_empty (a b : String) (h : b ≠ "") : a ++ b ≠ "" := by
  intro hab
  apply h
  apply String.ext
  have hd := congrArg String.data hab
  rw [String.data_append] at hd
  simpa using (List.append_eq_nil.mp hd).2

theorem dpMsg_ne_empty (d : Int) : dpMsg d ≠ "" := by
  unfold dpMsg
  apply append_right_ne_empty
  decide

theorem minMsg_ne_empty (q : JSNum) : minMsg q ≠ "" := by
  unfold minMsg
  apply append_right_ne_empty
  decide

theorem maxMsg_ne_empty (q : JSNum) : maxMsg q ≠ "" := by
  unfold maxMsg
  apply append_right_ne_empty
  decide

/-- C10: for every value and constraint configuration the verdict is
coherent — `hasError` holds exactly when the helper message is
non-empty; every error path installs a non-empty message and every
passing path leaves the message empty. -/
theorem error_iff_nonempty_message (p : Props) (v : String) :
    (validateAndSetError p v).1 = true ↔ (validateAndSetError p v).2 ≠ "" := by
  generalize h : validateAndSetError p v = r
  simp only [validateAndSetError] at h
  repeat' split at h
  all_goals subst h
  all_goals simp_all [dpMsg_ne_empty, minMsg_ne_empty, maxMsg_ne_empty,
    reqMsg, fmtMsgDec, fmtMsgInt, nanMsg]

theorem digitsOnly_fracTail : ∀ l, digitsOnly l = true → fracTail l = true
  | [], _ => rfl
  | c :: rest, h => by
    rw [digitsOnly, Bool.and_eq_true] at h
    have hc : c ≠ '.' := by
      intro h'
      rw [h'] at h
      exact absurd h.1 (by decide)
    rw [fracTail, if_neg hc, Bool.and_eq_true]
    exact ⟨h.1, digitsOnly_fracTail rest h.2⟩

theorem digitsOnly_no_digit : ∀ l, digitsOnly l = true → l.any isAsciiDigit = false → l = []
  | [], _, _ => rfl
  | c :: rest, h1, h2 => by
    rw [digitsOnly, Bool.and_eq_true] at h1
    rw [List.any_cons, Bool.or_eq_false_iff] at h2
    exact absurd h1.1 (by simp [h2.1])

theorem fracTail_no_digit : ∀ l, fracTail l = true → l.any isAsciiDigit = false →
    l = [] ∨ l = ['.']
  | [], _, _ => Or.inl rfl
  | c :: rest, h1, h2 => by
    rw [List.any_cons, Bool.or_eq_false_iff] at h2
    by_cases hc : c = '.'
    · subst hc
      rw [fracTail, if_pos rfl] at h1
      right
      rw [digitsOnly_no_digit rest h1 h2.2]
    · rw [fracTail, if_neg hc, Bool.and_eq_true] at h1
      exact absurd h1.1 (by simp [h2.1])

/-- C9: the Validator's defensive `isNaN` branch is unreachable — for
every non-empty value that matches the step-3 format regexp and is
not one of the in-progress tokens `"-"`, `"."`, `"-."`, conversion by
`Number` succeeds (is not NaN). -/
theorem conversion_never_NaN (ad : Bool) (v : String)
    (h0 : v ≠ "") (hp : matchesPattern ad v = true)
    (h1 : v ≠ "-") (h2 : v ≠ ".") (h3 : v ≠ "-.") :
    (jsNumber v).isSome := by
  rcases hl : v.data with _ | ⟨c, r⟩
  · exact absurd (String.ext hl) h0
  have hv : v = ⟨c :: r⟩ := String.ext hl
  subst hv
  simp only [matchesPattern] at hp
  by_cases hplus : c = '+'
  · subst hplus
    cases ad <;> simp [fracTail, digitsOnly, isAsciiDigit] at hp
  by_cases hminus : c = '-'
  · subst hminus
    rw [if_pos rfl] at hp
    have hft : fracTail r = true := by
      cases ad
      · exact digitsOnly_fracTail r hp
      · exact hp
    have hany : r.any isAsciiDigit = true := by
      by_contra hno
      rw [Bool.not_eq_true] at hno
      rcases fracTail_no_digit r hft hno with h | h
      · exact h1 (by rw [h])
      · exact h3 (by rw [h])
    simp [jsNumber, hft, hany]
  · rw [if_neg hminus] at hp
    have hft : fracTail (c :: r) = true := by
      cases ad
      · exact digitsOnly_fracTail _ hp
      · exact hp
    have hany : (c :: r).any isAsciiDigit = true := by
      by_contra hno
      rw [Bool.not_eq_true] at hno
      rcases fracTail_no_digit _ hft hno with h | h
      · exact absurd h (by simp)
      · have hc : c = '.' := by injection h
        have hr : r = [] := by injection h with _ hr
        subst hc; subst hr
        exact h2 rfl
    simp [jsNumber, hft, hany, hminus, hplus]


theorem conversion_never_NaN_witness :
    ("12" : String) ≠ "" ∧ matchesPattern true "12" = true ∧ (jsNumber "12").isSome :=
  ⟨by decide, by decide,
    conversion_never_NaN true "12" (by decide) (by decide) (by decide) (by decide) (by decide)⟩

/-- C8 amended: `onValueChange` never fires for RawChange events
delivered while Composing nor for a blur while Composing; an
Idle-path RawChange fires it exactly once with the normalized value
— unconditionally, even when that value equals the current canonical
value; and blur fires it exactly for a rounding that changed the
canonical value (with the new value installed). -/
theorem onValueChange_firing_discipline (p : Props) (st : FieldState) (input : String) :
    (st.isComposing = true →
      (handleInternalChange p st input).2 = [] ∧ handleInternalBlur p st = some (st, [])) ∧
    (st.isComposing = false →
      (handleInternalChange p st input).2 = [normalizeAndRemoveCommas (some input)]) ∧
    (∀ st' calls, st.isComposing = false → handleInternalBlur p st = some (st', calls) →
      (calls = [] ∧ st'.internalValue = st.internalValue) ∨
        (∃ r, calls = [r] ∧ r ≠ st.internalValue ∧ st'.internalValue = r)) := by
  refine ⟨?_, ?_, ?_⟩
  · intro h
    constructor
    · simp [handleInternalChange, h]
    · simp [handleInternalBlur, h]
  · intro h
    simp [handleInternalChange, h]
  · intro st' calls h hb
    rw [handleInternalBlur, if_neg (by simp [h])] at hb
    dsimp only at hb
    repeat' split at hb
    all_goals first
      | exact Option.noConfusion hb
      | skip
    all_goals
      injection hb with hb
      injection hb with hb1 hb2
      subst hb1
      subst hb2
    all_goals simp_all

theorem onValueChange_firing_discipline_witness :
    (handleInternalChange ⟨false, true, none, none, none⟩ ⟨"", false, "", false⟩ "123").2
        = [normalizeAndRemoveCommas (some "123")] ∧
      ((["1.50"] = ([] : List String) ∧ ("1.50" : String) = "1.5") ∨
        (∃ r, ["1.50"] = [r] ∧ r ≠ ("1.5" : String) ∧ ("1.50" : String) = r)) :=
  ⟨(onValueChange_firing_discipline ⟨false, true, none, none, none⟩
      ⟨"", false, "", false⟩ "123").2.1 rfl,
    (onValueChange_firing_discipline ⟨false, true, some 2, none, none⟩
      ⟨"1.5", false, "", false⟩ "x").2.2 ⟨"1.50", false, "", false⟩ ["1.50"] rfl (by decide)⟩

/-- C4 amended: no operation throws as long as `decimalPlaces` lies in
the range `0…100` supported by `toFixed`/`Intl` whenever it is set
and, when it is unset with decimals allowed, the value's fractional
portion has at most 100 digits; under those conditions
`formatNumberWithCommas` always returns a string and the blur
handler's rounding step always completes. -/
theorem format_and_blur_total_in_range (v : String) (ad : Bool) (dp : Option Int) (p : Props) (st : FieldState)
    (h1 : ∀ d, dp = some d → 0 ≤ d ∧ d ≤ 100)
    (h2 : ad = true → dp = none → (((splitDot v.data)[1]?).getD []).length ≤ 100)
    (h3 : ∀ d, p.decimalPlaces = some d → 0 ≤ d ∧ d ≤ 100) :
    (formatNumberWithCommas v ad dp).isSome ∧ (handleInternalBlur p st).isSome := by
  have hloc0 : ∀ x : JSNum, toLocaleStringEnUS x 0 0 = some (formatRat x 0 0) := by
    intro x
    unfold toLocaleStringEnUS
    rw [if_pos (by norm_num)]
    rfl
  constructor
  · unfold formatNumberWithCommas
    dsimp only
    split
    · simp
    split
    · -- NaN branch
      split
      · rw [hloc0]
        dsimp only
        split <;> simp
      · simp
    · -- numeric branch
      cases ad with
      | false =>
        rw [if_pos rfl]
        dsimp only
        rw [hloc0]
        simp
      | true =>
        rw [if_neg (by simp)]
        cases hdp : dp with
        | some d =>
          obtain ⟨hd0, hd100⟩ := h1 d hdp
          dsimp only
          unfold toLocaleStringEnUS
          rw [if_pos (by omega)]
          simp
        | none =>
          have hlen : (((splitDot v.data)[1]?).getD []).length ≤ 100 := h2 rfl hdp
          dsimp only
          cases hsp : (splitDot v.data)[1]? with
          | none =>
            dsimp only
            rw [hloc0]
            simp
          | some dps =>
            rw [hsp] at hlen
            dsimp only
            split
            · unfold toLocaleStringEnUS
              rw [if_pos (by simp at hlen ⊢; omega)]
              simp
            · rw [hloc0]
              simp
  · unfold handleInternalBlur
    split
    · simp
    dsimp only
    split
    case isTrue hcond =>
      cases hdp : p.decimalPlaces with
      | none => simp
      | some d =>
        obtain ⟨hd0, hd100⟩ := h3 d hdp
        cases hjn : jsNumber st.internalValue with
        | none => simp
        | some numValue =>
          dsimp only
          split
          case isTrue htok =>
            have htf : toFixed numValue d = some (fixedString numValue d.toNat) := by
              unfold toFixed
              rw [if_pos (by omega)]
            rw [htf]
            dsimp only
            split <;> simp
          case isFalse htok => simp
    case isFalse hcond => simp


theorem format_and_blur_total_in_range_witness :
    (formatNumberWithCommas "1.5" true (some 2)).isSome ∧
      (handleInternalBlur ⟨false, true, some 2, none, none⟩
        ⟨"1.5", false, "", false⟩).isSome :=
  format_and_blur_total_in_range "1.5" true (some 2)
    ⟨false, true, some 2, none, none⟩ ⟨"1.5", false, "", false⟩
    (by intro d hd; injection hd with hd; omega)
    (by intro _ hd; exact Option.noConfusion hd)
    (by intro d hd; injection hd with hd; omega)

theorem digitChar_digit (n : Nat) : isAsciiDigit (digitChar n) = true := by
  unfold digitChar
  split <;> decide

theorem natDigitsAux_digits : ∀ fuel n c, c ∈ natDigitsAux fuel n → isAsciiDigit c = true
  | 0, n, c => by intro hc; simp [natDigitsAux] at hc
  | fuel + 1, n, c => by
    intro hc
    rw [natDigitsAux] at hc
    split at hc
    · simp at hc
      subst hc
      exact digitChar_digit n
    · rcases List.mem_append.mp hc with h | h
      · exact natDigitsAux_digits fuel (n / 10) c h
      · simp at h
        subst h
        exact digitChar_digit _

theorem insertCommasRev_mem : ∀ (l : List Char) (c : Char),
    c ∈ insertCommasRev l → c ∈ l ∨ c = ','
  | [], c, h => Or.inl h
  | [c1], c, h => Or.inl h
  | [c1, c2], c, h => Or.inl h
  | [c1, c2, c3], c, h => Or.inl h
  | c1 :: c2 :: c3 :: c4 :: rest, c, h => by
    rw [insertCommasRev] at h
    simp only [List.mem_cons] at h ⊢
    rcases h with h | h | h | h | h
    · exact Or.inl (Or.inl h)
    · exact Or.inl (Or.inr (Or.inl h))
    · exact Or.inl (Or.inr (Or.inr (Or.inl h)))
    · exact Or.inr h
    · rcases insertCommasRev_mem (c4 :: rest) c h with h' | h'
      · simp only [List.mem_cons] at h'
        exact Or.inl (Or.inr (Or.inr (Or.inr h')))
      · exact Or.inr h'

theorem insertCommas_mem (l : List Char) (c : Char) (h : c ∈ insertCommas l) :
    c ∈ l ∨ c = ',' := by
  unfold insertCommas at h
  rw [List.mem_reverse] at h
  rcases insertCommasRev_mem _ _ h with h' | h'
  · exact Or.inl (List.mem_reverse.mp h')
  · exact Or.inr h'

theorem natDigitsAux_length_le : ∀ fuel n k, 1 ≤ k → n < 10 ^ k →
    (natDigitsAux fuel n).length ≤ k
  | 0, n, k, hk, _ => by simp [natDigitsAux]
  | fuel + 1, n, k, hk, hn => by
    rw [natDigitsAux]
    split
    · simpa using hk
    · rename_i hge
      have h10 : 10 ≤ n := by omega
      have hk2 : 2 ≤ k := by
        by_contra hlt
        have hk1 : k = 1 := by omega
        rw [hk1] at hn
        omega
      have hdiv : n / 10 < 10 ^ (k - 1) := by
        rw [Nat.div_lt_iff_lt_mul (by norm_num)]
        calc n < 10 ^ k := hn
          _ = 10 ^ (k - 1) * 10 := by
            rw [← pow_succ]
            congr 1
            omega
      have ih := natDigitsAux_length_le fuel (n / 10) (k - 1) (by omega) hdiv
      simp only [List.length_append, List.length_cons, List.length_nil]
      omega

theorem padLeftZeros_length (l : List Char) (k : Nat) (h : l.length ≤ k) :
    (padLeftZeros l k).length = k := by
  unfold padLeftZeros
  simp
  omega

theorem dropLeadingZerosUpTo_zero (l : List Char) : dropLeadingZerosUpTo l 0 = l := by
  cases l <;> rfl

theorem trimTrailingZeros_of_length (l : List Char) (k : Nat) (h : l.length = k) :
    trimTrailingZeros l k = l := by
  unfold trimTrailingZeros
  have h0 : l.length - k = 0 := by omega
  rw [h0, dropLeadingZerosUpTo_zero, List.reverse_reverse]

theorem portionAfterDot_no_dot : ∀ l, (∀ c ∈ l, c ≠ '.') → portionAfterDot l = []
  | [], _ => rfl
  | c :: rest, h => by
    rw [portionAfterDot, if_neg (h c (by simp))]
    exact portionAfterDot_no_dot rest (fun x hx => h x (by simp [hx]))

theorem portionAfterDot_append_dot : ∀ pre rest, (∀ c ∈ pre, c ≠ '.') →
    portionAfterDot (pre ++ '.' :: rest) = rest
  | [], rest, _ => by rw [List.nil_append, portionAfterDot, if_pos rfl]
  | c :: pre, rest, h => by
    rw [List.cons_append, portionAfterDot, if_neg (h c (by simp))]
    exact portionAfterDot_append_dot pre rest (fun x hx => h x (by simp [hx]))

theorem frac_of_formatRat (q : JSNum) (d : Nat) :
    (portionAfterDot (formatRat q d d).data).length = d := by
  have hpre : ∀ c ∈ ((if q.mant < 0 then ['-'] else []) ++
      insertCommas (natDigits (scaledRound q d / 10 ^ d))), c ≠ '.' := by
    intro c hc he
    subst he
    rcases List.mem_append.mp hc with h | h
    · revert h
      split <;> simp
    · rcases insertCommas_mem _ _ h with h' | h'
      · have := natDigitsAux_digits _ _ _ h'
        simp [isAsciiDigit] at this
      · simp at h'
  by_cases hd : d = 0
  · subst hd
    have h1 : formatRat q 0 0 = ⟨((if q.mant < 0 then ['-'] else []) ++
        insertCommas (natDigits (scaledRound q 0 / 10 ^ 0)) ++ [])⟩ := rfl
    rw [h1]
    dsimp only
    rw [List.append_nil, portionAfterDot_no_dot _ hpre]
    rfl
  · have hfr : scaledRound q d % 10 ^ d < 10 ^ d :=
      Nat.mod_lt _ (pow_pos (by norm_num) d)
    have hlen : (natDigits (scaledRound q d % 10 ^ d)).length ≤ d :=
      natDigitsAux_length_le _ _ d (by omega) hfr
    have hfull : (padLeftZeros (natDigits (scaledRound q d % 10 ^ d)) d).length = d :=
      padLeftZeros_length _ _ hlen
    have htrim : trimTrailingZeros (padLeftZeros (natDigits (scaledRound q d % 10 ^ d)) d) d
        = padLeftZeros (natDigits (scaledRound q d % 10 ^ d)) d :=
      trimTrailingZeros_of_length _ _ hfull
    have hne : padLeftZeros (natDigits (scaledRound q d % 10 ^ d)) d ≠ [] := by
      intro h
      rw [h] at hfull
      simp at hfull
      omega
    unfold formatRat
    dsimp only
    rw [if_neg hd, htrim, if_neg hne]
    rw [portionAfterDot_append_dot _ _ hpre]
    exact hfull

/-- C3 amended: the Formatter preserves the fractional digit count
only while `decimalPlaces` is undefined; whenever `decimalPlaces = d`
(in the supported range) is set and the value is numeric, the
Formatter itself pads/truncates, producing exactly `d` digits after
the decimal point (and no decimal point at all for `d = 0`) — not
only the Controller's blur-time rounding step. -/
theorem formatter_pads_fraction_to_decimalPlaces (v : String) (d : Nat) (q : JSNum)
    (hd : d ≤ 100)
    (hv : ¬(v = "" ∨ v = "-" ∨ v = "." ∨ v = "-."))
    (hq : jsNumber v = some q) :
    ∃ out, formatNumberWithCommas v true (some (d : Int)) = some out ∧
      (portionAfterDot out.data).length = d := by
  refine ⟨formatRat q d d, ?_, frac_of_formatRat q d⟩
  unfold formatNumberWithCommas
  dsimp only
  rw [if_neg hv, hq]
  dsimp only
  rw [if_neg (by simp)]
  dsimp only
  unfold toLocaleStringEnUS
  rw [if_pos (by omega)]
  simp


theorem formatter_pads_fraction_witness :
    (2 : Nat) ≤ 100 ∧ ¬(("1.5" : String) = "" ∨ ("1.5" : String) = "-" ∨
        ("1.5" : String) = "." ∨ ("1.5" : String) = "-.") ∧
      jsNumber "1.5" = some ⟨15, 1⟩ ∧
      (∃ out, formatNumberWithCommas "1.5" true (some ((2 : Nat) : Int)) = some out ∧
        (portionAfterDot out.data).length = 2) :=
  ⟨by decide, by decide, by decide,
    formatter_pads_fraction_to_decimalPlaces "1.5" 2 ⟨15, 1⟩ (by decide) (by decide) (by decide)⟩

end FullWidthNumberField
